import Mathlib

/-!
Verification of the chatbot core (github.com/henryhwang/chatbot).

This file embeds, as pure Lean functions, the parts of the Go program that
govern the conversation history, the context-window selection and the SSE
streaming decoder:

* `internal/types/types.go` — the `Message`, `Delta`, `StreamChoice` and
  `OpenAIStreamResponse` data model;
* `internal/conversation/conversation.go` — `Conversation.AddMessage` and
  `Conversation.GetMessagesForAPI` (`maxMessagesForAPI = 20`);
* `internal/api/api.go` — the streaming loop of `handleStreamResponse`
  (identical to the inline loop of the earlier `QueryHandler` variant) and
  the turn handling of `QueryHandler` (user-message append, history
  truncation to `maxHistoryMessages = 20`, error returns, commit decision);
* the external Go standard library pieces the code relies on are modelled:
  `strings.HasPrefix` / `strings.TrimPrefix` as codepoint-level prefix
  operations (equivalent to Go's byte-level ones on valid UTF-8), and
  `encoding/json.Unmarshal` as a small executable JSON parser plus a
  struct-decoding step faithful to Go's semantics on the inputs used here
  (missing field => zero value, `null` => zero value, wrong type => error,
  unknown fields ignored, trailing garbage => error).  The model parser is
  case-sensitive in field names and supports integer literals and the
  common string escapes; this restriction only makes it accept fewer
  payloads than Go and is irrelevant to the stated theorems, which are
  parser-agnostic, and to the concrete witnesses, whose inputs are plain.
-/

/-! ## String primitives modelling the `strings` package -/

/-- Model of Go `strings.HasPrefix p s` (argument order: marker first).
Codepoint-level prefix test; on valid UTF-8 this agrees with Go's
byte-level test because UTF-8 is a prefix-preserving code. -/
def strStarts (p s : String) : Bool :=
  p.data.isPrefixOf s.data

/-- Model of Go `strings.TrimPrefix s p`: drops `p` when it is a prefix of
`s`, otherwise returns `s` unchanged. -/
def strStrip (p s : String) : String :=
  if strStarts p s then ⟨s.data.drop p.data.length⟩ else s

/-- Concatenation of a list of strings, used for the specification-side
"concatenation of the chunks, in order". -/
def concatStrings : List String → String
  | [] => ""
  | s :: rest => s ++ concatStrings rest

/-! ## Data model (`internal/types/types.go`) -/

/-- Go `types.Message`: role, content, and an internal-only timestamp
(`time.Time`, modelled as `Nat`; the zero value is `0`). -/
structure Message where
  Role : String
  Content : String
  Timestamp : Nat
deriving Repr, DecidableEq

/-- Go `types.Delta`: the delta of one stream chunk.  JSON tags:
`role`, `content`, `reasoning_content`.  Zero value: all fields `""`. -/
structure Delta where
  Role : String
  Content : String
  Reasoning : String
deriving Repr, DecidableEq

/-- Go `types.StreamChoice`: JSON tags `delta`, `finish_reason`
(`*string`, modelled as `Option String`). -/
structure StreamChoice where
  delta : Delta
  FinishReason : Option String
deriving Repr, DecidableEq

/-- Go `types.OpenAIStreamResponse`: JSON tag `choices`. -/
structure OpenAIStreamResponse where
  Choices : List StreamChoice
deriving Repr, DecidableEq

/-! ## A small JSON model (for `encoding/json.Unmarshal`) -/

/-- JSON values (numbers restricted to integers, see the header comment). -/
inductive Json where
  | null : Json
  | bool : Bool → Json
  | num : Int → Json
  | str : String → Json
  | arr : List Json → Json
  | obj : List (String × Json) → Json
deriving Repr

def lbrace : Char := Char.ofNat 123

def rbrace : Char := Char.ofNat 125

def isWs (c : Char) : Bool :=
  c = ' ' || c = '\n' || c = '\t' || c = '\r'

def skipWs : List Char → List Char
  | [] => []
  | c :: cs => if isWs c then skipWs cs else c :: cs

/-- Parse the body of a JSON string literal (opening quote already
consumed); returns the decoded characters and the rest of the input. -/
def parseStrChars : List Char → Option (List Char × List Char)
  | [] => none
  | c :: cs =>
    if c = '"' then some ([], cs)
    else if c = '\\' then
      match cs with
      | [] => none
      | e :: cs2 =>
        let esc : Option Char :=
          if e = '"' then some '"'
          else if e = '\\' then some '\\'
          else if e = '/' then some '/'
          else if e = 'n' then some '\n'
          else if e = 't' then some '\t'
          else if e = 'r' then some '\r'
          else none
        match esc with
        | none => none
        | some ch =>
          match parseStrChars cs2 with
          | none => none
          | some (s, rest) => some (ch :: s, rest)
    else
      match parseStrChars cs with
      | none => none
      | some (s, rest) => some (c :: s, rest)

def takeDigits : List Char → List Char × List Char
  | [] => ([], [])
  | c :: cs =>
    if c.isDigit then
      let (ds, rest) := takeDigits cs
      (c :: ds, rest)
    else ([], c :: cs)

def digitsToNat (ds : List Char) : Nat :=
  ds.foldl (fun acc c => acc * 10 + (c.toNat - 48)) 0

/-- Parse an integer literal starting at `cs` (optional minus sign). -/
def parseIntLit (cs : List Char) : Option (Int × List Char) :=
  match cs with
  | '-' :: cs1 =>
    match takeDigits cs1 with
    | ([], _) => none
    | (ds, rest) => some (-(digitsToNat ds : Int), rest)
  | _ =>
    match takeDigits cs with
    | ([], _) => none
    | (ds, rest) => some ((digitsToNat ds : Int), rest)

def expectChars : List Char → List Char → Option (List Char)
  | [], rest => some rest
  | e :: es, c :: cs => if c = e then expectChars es cs else none
  | _ :: _, [] => none

mutual

/-- Fuel-indexed recursive-descent parser for one JSON value. -/
def parseVal (fuel : Nat) (cs : List Char) : Option (Json × List Char) :=
  match fuel with
  | 0 => none
  | fuel + 1 =>
    match skipWs cs with
    | [] => none
    | c :: cs1 =>
      if c = '"' then
        match parseStrChars cs1 with
        | none => none
        | some (s, rest) => some (Json.str ⟨s⟩, rest)
      else if c = '[' then
        match skipWs cs1 with
        | [] => none
        | c2 :: rest2 =>
          if c2 = ']' then some (Json.arr [], rest2)
          else
            match parseElems fuel (c2 :: rest2) with
            | none => none
            | some (es, r) => some (Json.arr es, r)
      else if c = lbrace then
        match skipWs cs1 with
        | [] => none
        | c2 :: rest2 =>
          if c2 = rbrace then some (Json.obj [], rest2)
          else
            match parseFieldList fuel (c2 :: rest2) with
            | none => none
            | some (fs, r) => some (Json.obj fs, r)
      else if c = 't' then
        match expectChars ['r', 'u', 'e'] cs1 with
        | none => none
        | some rest => some (Json.bool true, rest)
      else if c = 'f' then
        match expectChars ['a', 'l', 's', 'e'] cs1 with
        | none => none
        | some rest => some (Json.bool false, rest)
      else if c = 'n' then
        match expectChars ['u', 'l', 'l'] cs1 with
        | none => none
        | some rest => some (Json.null, rest)
      else if c = '-' || c.isDigit then
        match parseIntLit (c :: cs1) with
        | none => none
        | some (n, rest) => some (Json.num n, rest)
      else none

/-- Elements of a non-empty JSON array, up to and including `]`. -/
def parseElems (fuel : Nat) (cs : List Char) : Option (List Json × List Char) :=
  match fuel with
  | 0 => none
  | fuel + 1 =>
    match parseVal fuel cs with
    | none => none
    | some (v, rest) =>
      match skipWs rest with
      | [] => none
      | c :: rest2 =>
        if c = ',' then
          match parseElems fuel rest2 with
          | none => none
          | some (vs, r) => some (v :: vs, r)
        else if c = ']' then some ([v], rest2)
        else none

/-- Fields of a non-empty JSON object, up to and including the brace. -/
def parseFieldList (fuel : Nat) (cs : List Char) :
    Option (List (String × Json) × List Char) :=
  match fuel with
  | 0 => none
  | fuel + 1 =>
    match skipWs cs with
    | [] => none
    | c :: cs1 =>
      if c = '"' then
        match parseStrChars cs1 with
        | none => none
        | some (key, rest) =>
          match skipWs rest with
          | [] => none
          | c2 :: rest2 =>
            if c2 = ':' then
              match parseVal fuel rest2 with
              | none => none
              | some (v, rest3) =>
                match skipWs rest3 with
                | [] => none
                | c3 :: rest4 =>
                  if c3 = ',' then
                    match parseFieldList fuel rest4 with
                    | none => none
                    | some (fs, r) => some ((⟨key⟩, v) :: fs, r)
                  else if c3 = rbrace then some ([(⟨key⟩, v)], rest4)
                  else none
            else none
      else none

end

/-- Last-wins field lookup (Go keeps the last duplicate key). -/
def jLookup (fields : List (String × Json)) (key : String) : Option Json :=
  fields.foldl (fun acc f => if f.1 = key then some f.2 else acc) none

/-- Decoding a JSON value into a Go `string` field: `null` leaves the zero
value, a string is taken as-is, anything else is an unmarshalling error. -/
def jString : Json → Option String
  | Json.null => some ""
  | Json.str s => some s
  | _ => none

/-- Decode the `delta` object (missing fields keep their zero value). -/
def decodeDelta : Json → Option Delta
  | Json.null => some ⟨"", "", ""⟩
  | Json.obj fields =>
    let get : String → Option String := fun key =>
      match jLookup fields key with
      | none => some ""
      | some v => jString v
    match get "role", get "content", get "reasoning_content" with
    | some r, some c, some rc => some ⟨r, c, rc⟩
    | _, _, _ => none
  | _ => none

/-- Decode `finish_reason` (`*string`: missing or `null` gives `nil`). -/
def decodeFinishReason (fields : List (String × Json)) : Option (Option String) :=
  match jLookup fields "finish_reason" with
  | none => some none
  | some Json.null => some none
  | some (Json.str s) => some (some s)
  | some _ => none

def decodeChoice : Json → Option StreamChoice
  | Json.null => some ⟨⟨"", "", ""⟩, none⟩
  | Json.obj fields =>
    let dj : Json :=
      match jLookup fields "delta" with
      | none => Json.null
      | some v => v
    match decodeDelta dj, decodeFinishReason fields with
    | some d, some f => some ⟨d, f⟩
    | _, _ => none
  | _ => none

def decodeChoiceList : List Json → Option (List StreamChoice)
  | [] => some []
  | j :: js =>
    match decodeChoice j, decodeChoiceList js with
    | some c, some cs => some (c :: cs)
    | _, _ => none

def decodeStreamResponse : Json → Option OpenAIStreamResponse
  | Json.null => some ⟨[]⟩
  | Json.obj fields =>
    (match jLookup fields "choices" with
      | none => some []
      | some Json.null => some []
      | some (Json.arr es) => decodeChoiceList es
      | some _ => none).map (fun cs => ⟨cs⟩)
  | _ => none

/-- Model of `json.Unmarshal([]byte(data), &streamResp)`
(`internal/api/api.go`): parse one JSON value and decode it into
`OpenAIStreamResponse`; trailing non-whitespace input is an error. -/
def parseStreamEvent (s : String) : Option OpenAIStreamResponse :=
  match parseVal (2 * s.length + 2) s.data with
  | none => none
  | some (j, rest) =>
    match skipWs rest with
    | [] => decodeStreamResponse j
    | _ :: _ => none

/-! ## The streaming decoder (`internal/api/api.go`, `handleStreamResponse`,
lines 313-382; the same loop appears inline in the earlier `QueryHandler`
variant at lines 81-145) -/

/-- The SSE data marker checked by `strings.HasPrefix(line, "data: ")`. -/
def dataMarker : String := "data: "

/-- The stream-termination sentinel compared against the stripped payload. -/
def sentinel : String := "[DONE]"

/-- The only raw line whose stripped payload equals the sentinel. -/
def doneLine : String := "data: [DONE]"

/-- The decoder's per-turn state: the local variables of the streaming loop
(`fullResponse`, `assistantRole`, `currentlyReasoning`, `reasoningPrinted`,
`botPrefixPrinted`) plus `done`, which records that the loop `break` on the
sentinel was taken (afterwards no further line is inspected). -/
structure DecoderState where
  fullResponse : String
  assistantRole : String
  currentlyReasoning : Bool
  reasoningPrinted : Bool
  botPrefixPrinted : Bool
  done : Bool
deriving Repr, DecidableEq

/-- Initial decoder state (api.go lines 315-321). -/
def initDecoderState : DecoderState :=
  ⟨"", "assistant", false, false, false, false⟩

/-- Role capture: `if delta.Role != "" { assistantRole = delta.Role }`. -/
def applyRole (st : DecoderState) (d : Delta) : DecoderState :=
  if d.Role ≠ "" then { st with assistantRole := d.Role } else st

/-- Reasoning block (api.go lines 355-367): on a non-empty reasoning chunk,
entering reasoning mode sets `currentlyReasoning` and `reasoningPrinted`
and resets `botPrefixPrinted`; the chunk itself is only printed, never
accumulated. -/
def applyReasoning (st : DecoderState) (d : Delta) : DecoderState :=
  if d.Reasoning ≠ "" then
    if ¬ st.currentlyReasoning then
      { st with currentlyReasoning := true, reasoningPrinted := true,
                botPrefixPrinted := false }
    else st
  else st

/-- Content block (api.go lines 369-379): on a non-empty content chunk,
leave reasoning mode, print the bot marker once, and append the chunk to
`fullResponse`. -/
def applyContent (st : DecoderState) (d : Delta) : DecoderState :=
  if d.Content ≠ "" then
    let st1 := if st.currentlyReasoning then { st with currentlyReasoning := false } else st
    let st2 := if ¬ st1.botPrefixPrinted then { st1 with botPrefixPrinted := true } else st1
    { st2 with fullResponse := st2.fullResponse ++ d.Content }
  else st

/-- Processing of one successfully unmarshalled event
(`if len(streamResp.Choices) > 0 { delta := streamResp.Choices[0].Delta; ... }`). -/
def processEvent (st : DecoderState) (resp : OpenAIStreamResponse) : DecoderState :=
  match resp.Choices with
  | [] => st
  | choice :: _ =>
    applyContent (applyReasoning (applyRole st choice.delta) choice.delta) choice.delta

/-- One iteration of the scanner loop on a raw line: non-`data: ` lines are
ignored, the sentinel sets `done` (the `break`), a payload that fails to
unmarshal is skipped (`continue`), and otherwise the event is processed.
Once `done`, the state is frozen (the loop has been exited). -/
def stepLine (st : DecoderState) (line : String) : DecoderState :=
  if st.done then st
  else if strStarts dataMarker line then
    let data := strStrip dataMarker line
    if data = sentinel then { st with done := true }
    else
      match parseStreamEvent data with
      | none => st
      | some resp => processEvent st resp
  else st

/-- The whole scanner loop over the delivered lines. -/
def runDecoder (lines : List String) : DecoderState :=
  lines.foldl stepLine initDecoderState

/-! ## The conversation store (`internal/conversation/conversation.go`) -/

/-- `maxMessagesForAPI` (conversation.go line 14). -/
def maxMessagesForAPI : Nat := 20

/-- Go `conversation.Conversation`. -/
structure Conversation where
  Messages : List Message
deriving Repr, DecidableEq

/-- `Conversation.AddMessage` (conversation.go lines 45-52): appends one
message carrying the current timestamp; nothing is truncated. -/
def Conversation.AddMessage (c : Conversation) (role content : String) (now : Nat) :
    Conversation :=
  ⟨c.Messages ++ [⟨role, content, now⟩]⟩

/-- `Conversation.GetMessagesForAPI` (conversation.go lines 56-65): the
whole history when it is within `maxMessagesForAPI`, otherwise the slice
of the last `maxMessagesForAPI` messages. -/
def Conversation.GetMessagesForAPI (c : Conversation) : List Message :=
  let numMessages := c.Messages.length
  if numMessages ≤ maxMessagesForAPI then c.Messages
  else c.Messages.drop (numMessages - maxMessagesForAPI)

/-! ## Go slice aliasing model (for the snapshot claim)

`GetMessagesForAPI` returns `c.Messages` or `c.Messages[startIndex:]`; both
are Go slice headers over the store's backing array, so a write through the
returned slice is a write to the same backing array the store reads.  The
backing array is modelled as a `List Message` and a slice header as an
offset/length pair into it. -/

/-- A Go slice header: offset and length into a backing array. -/
structure SliceRef where
  start : Nat
  len : Nat
deriving Repr, DecidableEq

/-- The sequence of elements a slice header denotes. -/
def sliceView (backing : List Message) (r : SliceRef) : List Message :=
  (backing.drop r.start).take r.len

/-- Reading `s[i]` through a slice header (bounds-checked). -/
def sliceIdx (backing : List Message) (r : SliceRef) (i : Nat) : Option Message :=
  if i < r.len then backing.get? (r.start + i) else none

/-- Writing `s[i] = m` through a slice header: updates the backing array. -/
def sliceSet (backing : List Message) (r : SliceRef) (i : Nat) (m : Message) :
    List Message :=
  backing.set (r.start + i) m

/-- `GetMessagesForAPI` at the slice-header level: `return c.Messages`
keeps the same header, `return c.Messages[startIndex:]` moves the offset;
in both cases the backing array is shared with the store. -/
def GetMessagesForAPISlice (r : SliceRef) : SliceRef :=
  if r.len ≤ maxMessagesForAPI then r
  else ⟨r.start + (r.len - maxMessagesForAPI), maxMessagesForAPI⟩

/-! ## The turn handler (`internal/api/api.go`, `QueryHandler`,
lines 196-311) -/

/-- `maxHistoryMessages` (api.go line 191). -/
def maxHistoryMessages : Nat := 20

/-- The user message appended at the start of a turn
(`types.Message{Role: "user", Content: input}`; no timestamp is set, so it
carries the zero value). -/
def userMessage (input : String) : Message :=
  ⟨"user", input, 0⟩

/-- The history right after the user-message append (api.go line 201) and
the in-place truncation to the last `maxHistoryMessages` entries
(api.go lines 203-211).  This is both the state of the store when any of
the error returns is taken and the message sequence serialized into the
request payload. -/
def preCommitHistory (messages : List Message) (input : String) : List Message :=
  let m1 := messages ++ [userMessage input]
  if m1.length > maxHistoryMessages then m1.drop (m1.length - maxHistoryMessages)
  else m1

/-- Outcome of the HTTP exchange, as observed by `QueryHandler`: either
`client.Do` fails, or a response arrives with a status code and a body.
The body is the list of lines the scanner delivers; `readErr` records
whether the line source fails after delivering them (`scanner.Err()`
returns that error only if the loop actually drained the scanner, i.e.
did not `break` on the sentinel first). -/
inductive NetOutcome where
  | transportError : NetOutcome
  | httpResponse : Nat → List String → Bool → NetOutcome
deriving Repr, DecidableEq

/-- The observable result of one turn: the final state of the history
store, and which of the two "empty turn" notices were printed
(`"Received no response content."` and
`"Finished processing, but no text content was generated."`), plus
whether a stream read error was reported. -/
structure TurnResult where
  history : List Message
  noResponseNotice : Bool
  noContentNotice : Bool
  readErrorReported : Bool
deriving Repr, DecidableEq

/-- `QueryHandler` (api.go lines 196-311): append the user message,
truncate the history in place, send the request; on transport error or a
non-200 status return early; otherwise run the streaming loop, report a
scanner error (and return without committing), and finally commit the
assistant message only when `fullResponse` is non-empty, otherwise print
the no-content notice unless reasoning was printed.

The `json.Marshal` error branch (which would drop the user message again)
is not modelled: marshalling this request type cannot fail in Go. -/
def QueryHandler (messages : List Message) (input : String) (net : NetOutcome) :
    TurnResult :=
  let m2 := preCommitHistory messages input
  match net with
  | .transportError => ⟨m2, false, false, false⟩
  | .httpResponse status lines readErr =>
    if status ≠ 200 then ⟨m2, false, false, false⟩
    else
      let st := runDecoder lines
      let noResp := ¬ (st.botPrefixPrinted || st.reasoningPrinted)
      let errObserved := readErr && ¬ st.done
      if errObserved then ⟨m2, noResp, false, true⟩
      else if st.fullResponse ≠ "" then
        ⟨m2 ++ [⟨st.assistantRole, st.fullResponse, 0⟩], noResp, false, false⟩
      else if ¬ st.reasoningPrinted then ⟨m2, noResp, true, false⟩
      else ⟨m2, noResp, false, false⟩

/-! ## Specification-side definitions

These definitions follow the words of the specification, to be compared
against the embedded code. -/

/-- The content the first choice of an event carries (the decoder reads
`streamResp.Choices[0].Delta`; an event without choices carries none). -/
def eventContent (resp : OpenAIStreamResponse) : String :=
  match resp.Choices with
  | [] => ""
  | choice :: _ => choice.delta.Content

/-- The successfully parsed event a raw line yields, if any: the line must
carry the `data: ` marker and its payload must unmarshal. -/
def lineEvent (l : String) : Option OpenAIStreamResponse :=
  if strStarts dataMarker l then parseStreamEvent (strStrip dataMarker l) else none

/-- Stated from the spec: the concatenation, in arrival order, of exactly
the non-empty `delta.Content` fields of the successfully parsed `data: `
events processed before the sentinel line. -/
def specAccumulatedContent (lines : List String) : String :=
  concatStrings
    ((((lines.takeWhile (fun l => l ≠ doneLine)).filterMap lineEvent).map
        eventContent).filter (fun c => c ≠ ""))

/-- Modelled from the spec (§4.2): the token-cost heuristic
`cost(text) = 5 + floor(length(text) / 4)` of the Context Strategy.  The
token-budgeted strategy (`conversation.SimpleTruncationStrategy`) is
referenced from `cmd/chatbot/main.go` lines 33-35 but its implementation
is not among the provided sources, so it is modelled from the
specification's words here. -/
def cost (text : String) : Nat := 5 + text.length / 4

/-- Estimated cost of one message. -/
def msgCost (m : Message) : Nat := cost m.Content

/-- Estimated total cost of a message sequence. -/
def msgsCost (ms : List Message) : Nat := (ms.map msgCost).sum

/-- Modelled from the spec (§4.2, step 3): walk the history from most
recent to oldest (`revHist` is the reversed history), including a message
while the running total stays within `maxTokens` and stopping at the first
message that would exceed it. -/
def selectWalk (maxTokens : Nat) : Nat → List Message → List Message
  | _, [] => []
  | total, m :: rest =>
    if total + msgCost m ≤ maxTokens then m :: selectWalk maxTokens (total + msgCost m) rest
    else []

/-- Modelled from the spec (§4.2): `select(systemPrompt, fullHistory,
maxTokens)`; fails (`none` = BudgetExceeded) when the system prompt alone
exceeds the budget, otherwise greedily selects the longest recent suffix
of the history that fits together with the system prompt, returns it in
chronological order with the system prompt prepended. -/
def select (systemPrompt : Option Message) (fullHistory : List Message)
    (maxTokens : Nat) : Option (List Message) :=
  let sysCost := match systemPrompt with
    | some sp => msgCost sp
    | none => 0
  if maxTokens < sysCost then none
  else
    let included := selectWalk maxTokens sysCost fullHistory.reverse
    let chrono := included.reverse
    some (match systemPrompt with
      | some sp => sp :: chrono
      | none => chrono)

/-- The first-choice content a raw line contributes to the buffer: none
when the line lacks the marker or fails to parse. -/
def lineContent (l : String) : String :=
  match lineEvent l with
  | none => ""
  | some r => eventContent r

/-! ## Helper lemmas -/

theorem strAppendEmpty (s : String) : s ++ "" = s := by
  cases s with
  | mk l =>
    show String.mk (l ++ []) = String.mk l
    rw [List.append_nil]

theorem strEmptyAppend (s : String) : "" ++ s = s := by
  cases s with
  | mk l => rfl

theorem strAppendAssoc (a b c : String) : a ++ b ++ c = a ++ (b ++ c) := by
  cases a with
  | mk la =>
    cases b with
    | mk lb =>
      cases c with
      | mk lc =>
        show String.mk (la ++ lb ++ lc) = String.mk (la ++ (lb ++ lc))
        rw [List.append_assoc]

theorem strMkData (s : String) : String.mk s.data = s := by
  cases s
  rfl

example : parseStreamEvent "\x7b\"choices\":[\x7b\"delta\":\x7b\"content\":\"Hel\"\x7d\x7d]\x7d"
    = some ⟨[⟨⟨"", "Hel", ""⟩, none⟩]⟩ := by decide

example : parseStreamEvent "not json" = none := by decide

example : parseStreamEvent "[DONE]" = none := by decide

example :
    runDecoder ["data: \x7b\"choices\":[\x7b\"delta\":\x7b\"content\":\"Hel\"\x7d\x7d]\x7d",
      "data: \x7b\"choices\":[\x7b\"delta\":\x7b\"content\":\"lo\"\x7d\x7d]\x7d",
      "data: [DONE]"]
    = ⟨"Hello", "assistant", false, false, true, true⟩ := by decide

example :
    QueryHandler [] "hi" (.httpResponse 200
      ["data: \x7b\"choices\":[\x7b\"delta\":\x7b\"content\":\"ok\"\x7d\x7d]\x7d",
       "data: [DONE]"] false)
    = ⟨[⟨"user", "hi", 0⟩, ⟨"assistant", "ok", 0⟩], false, false, false⟩ := by decide

example :
    select (some ⟨"system", "be concise", 0⟩) [⟨"user", "what is the answer here", 0⟩] 20
    = some [⟨"system", "be concise", 0⟩, ⟨"user", "what is the answer here", 0⟩] := by decide

theorem strStarts_append (p v : String) : strStarts p (p ++ v) = true := by
  simp only [strStarts, String.data_append]
  exact (List.isPrefixOf_iff_prefix).mpr (List.prefix_append _ _)

theorem strStrip_append (p v : String) : strStrip p (p ++ v) = v := by
  simp only [strStrip, strStarts_append, if_true, String.data_append, List.drop_left,
    strMkData]

theorem doneLine_eq : doneLine = dataMarker ++ sentinel := by decide

theorem eq_doneLine_of_strip (l : String) (h1 : strStarts dataMarker l = true)
    (h2 : strStrip dataMarker l = sentinel) : l = doneLine := by
  have hpre : dataMarker.data <+: l.data := (List.isPrefixOf_iff_prefix).mp h1
  obtain ⟨t, ht⟩ := hpre
  unfold strStrip at h2
  rw [if_pos h1] at h2
  have hdrop : l.data.drop dataMarker.data.length = sentinel.data := congrArg String.data h2
  rw [← ht, List.drop_left] at hdrop
  have : l.data = doneLine.data := by
    rw [← ht, hdrop]
    decide
  rw [← strMkData l, this, strMkData]

theorem applyRole_fullResponse (st : DecoderState) (d : Delta) :
    (applyRole st d).fullResponse = st.fullResponse := by
  unfold applyRole
  split <;> rfl

theorem applyRole_done (st : DecoderState) (d : Delta) :
    (applyRole st d).done = st.done := by
  unfold applyRole
  split <;> rfl

theorem applyReasoning_fullResponse (st : DecoderState) (d : Delta) :
    (applyReasoning st d).fullResponse = st.fullResponse := by
  unfold applyReasoning
  split
  · split <;> rfl
  · rfl

theorem applyReasoning_done (st : DecoderState) (d : Delta) :
    (applyReasoning st d).done = st.done := by
  unfold applyReasoning
  split
  · split <;> rfl
  · rfl

theorem applyContent_fullResponse (st : DecoderState) (d : Delta) :
    (applyContent st d).fullResponse = st.fullResponse ++ d.Content := by
  unfold applyContent
  split
  · dsimp only
    split <;> split <;> rfl
  · rename_i h
    have hc : d.Content = "" := not_not.mp h
    rw [hc, strAppendEmpty]

theorem applyContent_done (st : DecoderState) (d : Delta) :
    (applyContent st d).done = st.done := by
  unfold applyContent
  split
  · dsimp only
    split <;> split <;> rfl
  · rfl

theorem processEvent_fullResponse (st : DecoderState) (resp : OpenAIStreamResponse) :
    (processEvent st resp).fullResponse = st.fullResponse ++ eventContent resp := by
  unfold processEvent eventContent
  match resp.Choices with
  | [] => exact (strAppendEmpty _).symm
  | choice :: _ =>
    rw [applyContent_fullResponse, applyReasoning_fullResponse, applyRole_fullResponse]

theorem processEvent_done (st : DecoderState) (resp : OpenAIStreamResponse) :
    (processEvent st resp).done = st.done := by
  unfold processEvent
  match resp.Choices with
  | [] => rfl
  | choice :: _ =>
    rw [applyContent_done, applyReasoning_done, applyRole_done]

theorem stepLine_of_done (st : DecoderState) (line : String) (h : st.done = true) :
    stepLine st line = st := by
  simp [stepLine, h]

theorem foldl_stepLine_of_done (lines : List String) (st : DecoderState)
    (h : st.done = true) : lines.foldl stepLine st = st := by
  induction lines with
  | nil => rfl
  | cons l ls ih => rw [List.foldl_cons, stepLine_of_done st l h, ih]

theorem stepLine_doneLine (st : DecoderState) (h : st.done = false) :
    stepLine st doneLine = { st with done := true } := by
  rw [doneLine_eq]
  simp [stepLine, h, strStarts_append, strStrip_append]

theorem stepLine_not_doneLine (st : DecoderState) (l : String) (h : st.done = false)
    (hne : l ≠ doneLine) :
    (stepLine st l).fullResponse = st.fullResponse ++ lineContent l ∧
      (stepLine st l).done = false := by
  unfold stepLine lineContent lineEvent
  rw [h]
  simp only [Bool.false_eq_true, if_false]
  by_cases hs : strStarts dataMarker l
  · rw [if_pos hs, if_pos hs]
    by_cases hsen : strStrip dataMarker l = sentinel
    · exact absurd (eq_doneLine_of_strip l hs hsen) hne
    · rw [if_neg hsen]
      cases hp : parseStreamEvent (strStrip dataMarker l) with
      | none => exact ⟨(strAppendEmpty _).symm, h⟩
      | some resp =>
        exact ⟨processEvent_fullResponse st resp, by rw [processEvent_done]; exact h⟩
  · rw [if_neg hs, if_neg hs]
    exact ⟨(strAppendEmpty _).symm, h⟩

theorem concatStrings_filter_ne_empty (l : List String) :
    concatStrings (l.filter (fun c => c ≠ "")) = concatStrings l := by
  induction l with
  | nil => rfl
  | cons s rest ih =>
    by_cases hs : s = ""
    · subst hs
      rw [List.filter_cons]
      simpa [concatStrings, strEmptyAppend] using ih
    · rw [List.filter_cons]
      simp only [hs, ne_eq, not_false_eq_true, decide_True]
      simp only [concatStrings, ih]

theorem specAccumulatedContent_nil : specAccumulatedContent [] = "" := rfl

theorem specAccumulatedContent_cons_done (ls : List String) :
    specAccumulatedContent (doneLine :: ls) = "" := by
  simp [specAccumulatedContent, List.takeWhile_cons, concatStrings]

theorem specAccumulatedContent_cons (l : String) (ls : List String) (hne : l ≠ doneLine) :
    specAccumulatedContent (l :: ls) = lineContent l ++ specAccumulatedContent ls := by
  unfold specAccumulatedContent
  rw [concatStrings_filter_ne_empty, concatStrings_filter_ne_empty]
  have htw : (l :: ls).takeWhile (fun x => x ≠ doneLine)
      = l :: ls.takeWhile (fun x => x ≠ doneLine) := by
    simp [List.takeWhile_cons, hne]
  rw [htw]
  cases he : lineEvent l with
  | none =>
    simp [List.filterMap_cons, he, lineContent, strEmptyAppend]
  | some r =>
    simp [List.filterMap_cons, he, lineContent, concatStrings]

theorem foldl_stepLine_fullResponse (lines : List String) :
    ∀ st : DecoderState, st.done = false →
      (lines.foldl stepLine st).fullResponse =
        st.fullResponse ++ specAccumulatedContent lines := by
  induction lines with
  | nil =>
    intro st _
    rw [List.foldl_nil, specAccumulatedContent_nil, strAppendEmpty]
  | cons l ls ih =>
    intro st h
    by_cases hd : l = doneLine
    · subst hd
      rw [List.foldl_cons, stepLine_doneLine st h,
        foldl_stepLine_of_done ls _ rfl, specAccumulatedContent_cons_done,
        strAppendEmpty]
    · obtain ⟨hfull, hdone⟩ := stepLine_not_doneLine st l h hd
      rw [List.foldl_cons, ih _ hdone, hfull, specAccumulatedContent_cons l ls hd,
        strAppendAssoc]

/-- C1.  For every sequence of SSE lines consumed in one turn, the
decoder's accumulated content buffer (`fullResponse`) equals the
concatenation, in arrival order, of exactly the non-empty `delta.Content`
fields (of the first choice, the one the decoder reads) of the
successfully parsed `data: ` events processed before the sentinel;
reasoning text never contributes to it — `specAccumulatedContent` is
defined from the content fields alone. -/
theorem C1_decoder_accumulates_content_only (lines : List String) :
    (runDecoder lines).fullResponse = specAccumulatedContent lines := by
  rw [runDecoder, foldl_stepLine_fullResponse lines initDecoderState rfl]
  exact strEmptyAppend _

/-- C4.  Once the sentinel line is consumed, no later line is inspected:
appending any lines after `data: [DONE]` leaves the entire decoder state
(accumulated content, resolved role, and all flags) identical to the run
that ends at the sentinel. -/
theorem foldl_stepLine_doneLine (before after : List String) :
    ∀ st : DecoderState,
      (before ++ doneLine :: after).foldl stepLine st
        = (before ++ [doneLine]).foldl stepLine st := by
  induction before with
  | nil =>
    intro st
    rw [List.nil_append, List.nil_append, List.foldl_cons, List.foldl_cons,
      List.foldl_nil]
    by_cases h : st.done = true
    · rw [stepLine_of_done st _ h]
      exact foldl_stepLine_of_done after st h
    · have hb : st.done = false := by simpa using h
      rw [stepLine_doneLine st hb]
      exact foldl_stepLine_of_done after _ rfl
  | cons l ls ih =>
    intro st
    rw [List.cons_append, List.cons_append, List.foldl_cons, List.foldl_cons]
    exact ih _

/-- C4.  Once the sentinel line is consumed, no later line is inspected:
with any lines appended after `data: [DONE]`, the entire decoder state
(accumulated content, resolved role, and all flags) is identical to that
of the run that ends at the sentinel. -/
theorem C4_sentinel_stops_consumption (before after : List String) :
    runDecoder (before ++ doneLine :: after) = runDecoder (before ++ [doneLine]) := by
  unfold runDecoder
  exact foldl_stepLine_doneLine before after initDecoderState

theorem stepLine_data_none (st : DecoderState) (d : String) (h : st.done = false)
    (hs : d ≠ sentinel) (hp : parseStreamEvent d = none) :
    stepLine st (dataMarker ++ d) = st := by
  unfold stepLine
  rw [h]
  simp [strStarts_append, strStrip_append, hs, hp]

theorem stepLine_data_some (st : DecoderState) (d : String) (resp : OpenAIStreamResponse)
    (h : st.done = false) (hp : parseStreamEvent d = some resp) :
    stepLine st (dataMarker ++ d) = processEvent st resp := by
  have hs : d ≠ sentinel := by
    intro hc
    rw [hc] at hp
    rw [show parseStreamEvent sentinel = none from by decide] at hp
    exact Option.noConfusion hp
  unfold stepLine
  rw [h]
  simp [strStarts_append, strStrip_append, hs, hp]

/-- C5.  A `data: ` line whose payload fails to parse as JSON is
non-fatal: with a malformed payload `m` (not the sentinel) between two
successfully parsing payloads, the accumulated content is exactly the
concatenation of the two valid chunks — the parse failure is skipped and
does not interrupt accumulation. -/
theorem C5_malformed_line_skipped (m v1 v2 : String) (e1 e2 : OpenAIStreamResponse)
    (hm : parseStreamEvent m = none) (hms : m ≠ sentinel)
    (h1 : parseStreamEvent v1 = some e1) (h2 : parseStreamEvent v2 = some e2) :
    (runDecoder [dataMarker ++ v1, dataMarker ++ m, dataMarker ++ v2]).fullResponse
      = eventContent e1 ++ eventContent e2 := by
  unfold runDecoder
  rw [List.foldl_cons, List.foldl_cons, List.foldl_cons, List.foldl_nil]
  rw [stepLine_data_some initDecoderState v1 e1 rfl h1]
  have hdone1 : (processEvent initDecoderState e1).done = false := by
    rw [processEvent_done]
    rfl
  rw [stepLine_data_none _ m hdone1 hms hm]
  rw [stepLine_data_some _ v2 e2 hdone1 h2]
  rw [processEvent_fullResponse, processEvent_fullResponse]
  show "" ++ eventContent e1 ++ eventContent e2 = eventContent e1 ++ eventContent e2
  rw [strEmptyAppend]

/-- Witness for C5 at a concrete input: the malformed line `data: oops`
between the two chunks of the spec example accumulates exactly `"Hello"`. -/
theorem C5_witness :
    (runDecoder ["data: \x7b\"choices\":[\x7b\"delta\":\x7b\"content\":\"Hel\"\x7d\x7d]\x7d",
      "data: oops",
      "data: \x7b\"choices\":[\x7b\"delta\":\x7b\"content\":\"lo\"\x7d\x7d]\x7d"]).fullResponse
      = "Hello" := by
  have h := C5_malformed_line_skipped "oops"
    "\x7b\"choices\":[\x7b\"delta\":\x7b\"content\":\"Hel\"\x7d\x7d]\x7d"
    "\x7b\"choices\":[\x7b\"delta\":\x7b\"content\":\"lo\"\x7d\x7d]\x7d"
    ⟨[⟨⟨"", "Hel", ""⟩, none⟩]⟩ ⟨[⟨⟨"", "lo", ""⟩, none⟩]⟩
    (by decide) (by decide) (by decide) (by decide)
  simpa using h

/-- C3.  If the line source reports a read error during a turn — the
scanner stops before the sentinel, so `scanner.Err()` surfaces the error —
no assistant message is committed for that turn: the history is exactly
the pre-commit history (user message appended, then count-truncated),
regardless of how much content was already accumulated or printed. -/
theorem C3_read_error_commits_no_assistant (messages : List Message) (input : String)
    (lines : List String) (h : (runDecoder lines).done = false) :
    (QueryHandler messages input (.httpResponse 200 lines true)).history
      = preCommitHistory messages input := by
  unfold QueryHandler
  simp [h]

/-- Witness for C3: a read error after a content chunk was accumulated
still leaves the history with only the user message. -/
theorem C3_witness :
    (QueryHandler [] "hi" (.httpResponse 200
      ["data: \x7b\"choices\":[\x7b\"delta\":\x7b\"content\":\"Hel\"\x7d\x7d]\x7d"]
      true)).history
      = [⟨"user", "hi", 0⟩] := by
  have h := C3_read_error_commits_no_assistant [] "hi"
    ["data: \x7b\"choices\":[\x7b\"delta\":\x7b\"content\":\"Hel\"\x7d\x7d]\x7d"]
    (by decide)
  rw [h]
  decide

/-- C9.  A turn that ends with empty accumulated content but at least one
reasoning chunk emitted commits nothing to the history and produces
neither of the two empty-turn notices. -/
theorem C9_reasoning_only_turn (messages : List Message) (input : String)
    (lines : List String) (hempty : (runDecoder lines).fullResponse = "")
    (hreason : (runDecoder lines).reasoningPrinted = true) :
    (QueryHandler messages input (.httpResponse 200 lines false)).history
        = preCommitHistory messages input ∧
      (QueryHandler messages input (.httpResponse 200 lines false)).noContentNotice
        = false ∧
      (QueryHandler messages input (.httpResponse 200 lines false)).noResponseNotice
        = false := by
  unfold QueryHandler
  simp [hempty, hreason]

/-- Witness for C9: a reasoning-only stream commits nothing and prints no
empty-turn notice. -/
theorem C9_witness :
    (QueryHandler [] "hi" (.httpResponse 200
        ["data: \x7b\"choices\":[\x7b\"delta\":\x7b\"reasoning_content\":\"think\"\x7d\x7d]\x7d",
         "data: [DONE]"] false)).history
        = [⟨"user", "hi", 0⟩] ∧
      (QueryHandler [] "hi" (.httpResponse 200
        ["data: \x7b\"choices\":[\x7b\"delta\":\x7b\"reasoning_content\":\"think\"\x7d\x7d]\x7d",
         "data: [DONE]"] false)).noContentNotice = false := by
  have h := C9_reasoning_only_turn [] "hi"
    ["data: \x7b\"choices\":[\x7b\"delta\":\x7b\"reasoning_content\":\"think\"\x7d\x7d]\x7d",
     "data: [DONE]"]
    (by decide) (by decide)
  exact ⟨by rw [h.1]; decide, h.2.1⟩

/-- C8 as stated is false: the user message is appended to the history
before the request is sent, so a turn that fails with a transport error
leaves the store changed — it now contains the user message. -/
theorem C8_counterexample :
    (QueryHandler [] "hi" .transportError).history = [⟨"user", "hi", 0⟩] ∧
      ([⟨"user", "hi", 0⟩] : List Message) ≠ [] := by
  decide

/-- C8 amended: the user message is appended unconditionally at the start
of the turn; a failed turn — transport error, non-200 status, or a
reported stream read error — leaves the history equal to the pre-commit
history: the user message is retained (subject to count-truncation) and no
assistant message is added. -/
theorem C8_amended_user_retained_on_failure (messages : List Message) (input : String) :
    (QueryHandler messages input .transportError).history
        = preCommitHistory messages input ∧
      (∀ (status : Nat) (lines : List String) (readErr : Bool), status ≠ 200 →
        (QueryHandler messages input (.httpResponse status lines readErr)).history
          = preCommitHistory messages input) ∧
      (∀ lines : List String, (runDecoder lines).done = false →
        (QueryHandler messages input (.httpResponse 200 lines true)).history
          = preCommitHistory messages input) := by
  refine ⟨rfl, ?_, ?_⟩
  · intro status lines readErr hs
    unfold QueryHandler
    simp [hs]
  · intro lines h
    unfold QueryHandler
    simp [h]

/-- Witness for C8 (amended): a 500 response leaves exactly the user
message in the previously empty history. -/
theorem C8_witness :
    (QueryHandler [] "hi" (.httpResponse 500 [] false)).history
      = [⟨"user", "hi", 0⟩] := by
  have h := (C8_amended_user_retained_on_failure [] "hi").2.1 500 [] false (by decide)
  rw [h]
  decide

/-- C6 as stated is false: the turn handler's windowing (api.go lines
203-211) is destructive — with a 20-message store, one more turn removes
the oldest entry from the store itself. -/
theorem C6_counterexample :
    (⟨"user", "first", 0⟩ : Message) ∈
        (⟨"user", "first", 0⟩ :: List.replicate 19 (⟨"user", "x", 0⟩ : Message)) ∧
      (⟨"user", "first", 0⟩ : Message) ∉
        (QueryHandler
          (⟨"user", "first", 0⟩ :: List.replicate 19 (⟨"user", "x", 0⟩ : Message))
          "hi" .transportError).history := by
  decide

/-- C6 amended: the `Conversation` store itself is append-only —
`AddMessage` only appends and `GetMessagesForAPI` is purely read-side
(it returns a suffix of the stored history) — but the turn handler's
windowing is destructive: `QueryHandler` keeps only a suffix of the
history, of length `min (n+1) 20`, removing the oldest entries from the
store when the limit is exceeded. -/
theorem C6_amended_store_append_only_handler_truncates :
    (∀ (c : Conversation) (role content : String) (now : Nat),
      (c.AddMessage role content now).Messages = c.Messages ++ [⟨role, content, now⟩]) ∧
      (∀ c : Conversation, c.GetMessagesForAPI <:+ c.Messages) ∧
      (∀ (messages : List Message) (input : String),
        (QueryHandler messages input .transportError).history
            <:+ messages ++ [userMessage input] ∧
          (QueryHandler messages input .transportError).history.length
            = min (messages.length + 1) maxHistoryMessages) := by
  refine ⟨fun c role content now => rfl, ?_, ?_⟩
  · intro c
    unfold Conversation.GetMessagesForAPI
    dsimp only
    split
    · exact List.suffix_refl _
    · exact List.drop_suffix _ _
  · intro messages input
    have hh : (QueryHandler messages input .transportError).history
        = preCommitHistory messages input := rfl
    rw [hh]
    unfold preCommitHistory
    dsimp only
    split
    · constructor
      · exact List.drop_suffix _ _
      · rename_i hgt
        rw [List.length_drop]
        rw [List.length_append] at hgt ⊢
        simp only [List.length_singleton] at hgt ⊢
        omega
    · constructor
      · exact List.suffix_refl _
      · rename_i hle
        rw [List.length_append] at hle ⊢
        simp only [List.length_singleton] at hle ⊢
        omega

/-- C7 as stated is false: `GetMessagesForAPI` returns a slice header over
the store's backing array, not an independent copy — writing through
element 0 of the returned slice changes what the store's own slice reads. -/
theorem C7_counterexample :
    sliceView
        (sliceSet [⟨"user", "a", 0⟩] (GetMessagesForAPISlice ⟨0, 1⟩) 0 ⟨"user", "B", 0⟩)
        ⟨0, 1⟩
      ≠ sliceView [⟨"user", "a", 0⟩] ⟨0, 1⟩ := by
  decide

/-- C7 amended: the sequence returned by `GetMessagesForAPI` aliases the
store's backing array; a write through position `i` of the returned slice
is visible in the store at the corresponding position (the snapshot is a
shared view, not an independent copy). -/
theorem C7_amended_snapshot_aliases_store (backing : List Message) (r : SliceRef)
    (i : Nat) (m : Message) (hwf : r.start + r.len ≤ backing.length)
    (hi : i < (GetMessagesForAPISlice r).len) :
    sliceIdx (sliceSet backing (GetMessagesForAPISlice r) i m) r
        ((GetMessagesForAPISlice r).start - r.start + i)
      = some m := by
  unfold GetMessagesForAPISlice at hi ⊢
  unfold sliceIdx sliceSet
  by_cases hlen : r.len ≤ maxMessagesForAPI
  · rw [if_pos hlen] at hi ⊢
    rw [if_pos (show r.start - r.start + i < r.len by omega)]
    have harg : r.start + (r.start - r.start + i) = r.start + i := by omega
    rw [harg]
    exact List.get?_set_eq_of_lt m (by omega)
  · rw [if_neg hlen] at hi ⊢
    dsimp only at hi ⊢
    have hi20 : i < maxMessagesForAPI := hi
    rw [if_pos (show r.start + (r.len - maxMessagesForAPI) - r.start + i < r.len by
      unfold maxMessagesForAPI at hi20 hlen ⊢
      omega)]
    have harg : r.start + (r.start + (r.len - maxMessagesForAPI) - r.start + i)
        = r.start + (r.len - maxMessagesForAPI) + i := by omega
    rw [harg]
    exact List.get?_set_eq_of_lt m (by
      unfold maxMessagesForAPI at hi20 hlen
      omega)

/-- Witness for C7 (amended): writing through the snapshot of a
one-message store is visible when the store reads position 0. -/
theorem C7_witness :
    sliceIdx
        (sliceSet [⟨"user", "a", 0⟩] (GetMessagesForAPISlice ⟨0, 1⟩) 0 ⟨"user", "B", 0⟩)
        ⟨0, 1⟩ 0
      = some ⟨"user", "B", 0⟩ :=
  C7_amended_snapshot_aliases_store [⟨"user", "a", 0⟩] ⟨0, 1⟩ 0 ⟨"user", "B", 0⟩
    (by decide) (by decide)

/-- C10.  The transmitted context is bounded by a fixed count, not a token
budget: a history of at most `maxMessagesForAPI = 20` messages is selected
entirely, and a longer history yields a window of exactly 20 messages that
is a suffix of the history (the most recent ones, in original order). -/
theorem C10_fixed_count_window (c : Conversation) :
    (c.Messages.length ≤ maxMessagesForAPI → c.GetMessagesForAPI = c.Messages) ∧
      (maxMessagesForAPI < c.Messages.length →
        c.GetMessagesForAPI.length = maxMessagesForAPI ∧
          c.GetMessagesForAPI <:+ c.Messages) := by
  constructor
  · intro hle
    unfold Conversation.GetMessagesForAPI
    dsimp only
    rw [if_pos hle]
  · intro hgt
    unfold Conversation.GetMessagesForAPI
    dsimp only
    rw [if_neg (by omega)]
    constructor
    · rw [List.length_drop]
      omega
    · exact List.drop_suffix _ _

/-- Witness for C10: a 5-message history is selected entirely, and a
25-message history is selected as exactly 20 messages. -/
theorem C10_witness :
    Conversation.GetMessagesForAPI ⟨List.replicate 5 (⟨"user", "x", 0⟩ : Message)⟩
        = List.replicate 5 (⟨"user", "x", 0⟩ : Message) ∧
      (Conversation.GetMessagesForAPI
          ⟨List.replicate 25 (⟨"user", "x", 0⟩ : Message)⟩).length
        = maxMessagesForAPI :=
  ⟨(C10_fixed_count_window ⟨List.replicate 5 ⟨"user", "x", 0⟩⟩).1 (by decide),
    ((C10_fixed_count_window ⟨List.replicate 25 ⟨"user", "x", 0⟩⟩).2 (by decide)).1⟩

theorem msgsCost_cons (m : Message) (l : List Message) :
    msgsCost (m :: l) = msgCost m + msgsCost l := by
  unfold msgsCost
  rw [List.map_cons, List.sum_cons]

theorem msgsCost_reverse (l : List Message) : msgsCost l.reverse = msgsCost l := by
  unfold msgsCost
  rw [List.map_reverse, List.sum_reverse]

theorem selectWalk_cost (maxTokens : Nat) :
    ∀ (revHist : List Message) (total : Nat), total ≤ maxTokens →
      total + msgsCost (selectWalk maxTokens total revHist) ≤ maxTokens := by
  intro revHist
  induction revHist with
  | nil =>
    intro total h
    simpa [selectWalk, msgsCost] using h
  | cons m rest ih =>
    intro total h
    unfold selectWalk
    by_cases hc : total + msgCost m ≤ maxTokens
    · rw [if_pos hc, msgsCost_cons]
      have := ih (total + msgCost m) hc
      omega
    · rw [if_neg hc]
      simpa [msgsCost] using h

/-- C2.  Modelled from the spec (the token-budgeted strategy is referenced
from `cmd/chatbot/main.go` but absent from the provided sources): for every
history and every `maxTokens` at least the system-prompt cost, `select`
succeeds and returns a message sequence whose total estimated cost — with
`cost(text) = 5 + length(text) / 4` per message — does not exceed
`maxTokens`. -/
theorem C2_select_within_budget (systemPrompt : Option Message)
    (fullHistory : List Message) (maxTokens : Nat)
    (h : (match systemPrompt with | some sp => msgCost sp | none => 0) ≤ maxTokens) :
    (select systemPrompt fullHistory maxTokens).isSome = true ∧
      ∀ result, select systemPrompt fullHistory maxTokens = some result →
        msgsCost result ≤ maxTokens := by
  cases systemPrompt with
  | none =>
    have hsel : select none fullHistory maxTokens
        = some (selectWalk maxTokens 0 fullHistory.reverse).reverse := by
      unfold select
      rw [if_neg (by omega)]
    refine ⟨by rw [hsel]; rfl, ?_⟩
    intro result hres
    rw [hsel] at hres
    have hr := Option.some.inj hres
    rw [← hr, msgsCost_reverse]
    have := selectWalk_cost maxTokens fullHistory.reverse 0 (Nat.zero_le _)
    omega
  | some sp =>
    have hsp : msgCost sp ≤ maxTokens := h
    have hsel : select (some sp) fullHistory maxTokens
        = some (sp :: (selectWalk maxTokens (msgCost sp) fullHistory.reverse).reverse) := by
      unfold select
      rw [if_neg (by omega)]
    refine ⟨by rw [hsel]; rfl, ?_⟩
    intro result hres
    rw [hsel] at hres
    have hr := Option.some.inj hres
    rw [← hr, msgsCost_cons, msgsCost_reverse]
    have := selectWalk_cost maxTokens fullHistory.reverse (msgCost sp) hsp
    omega

/-- Witness for C2: with system prompt `"be concise"` (cost 7) and a
23-character user message (cost 10), `select` at budget 20 returns
`[system, user]`, whose total cost is within budget. -/
theorem C2_witness :
    msgsCost [⟨"system", "be concise", 0⟩, ⟨"user", "what is the answer here", 0⟩] ≤ 20 :=
  (C2_select_within_budget (some ⟨"system", "be concise", 0⟩)
      [⟨"user", "what is the answer here", 0⟩] 20 (by decide)).2
    [⟨"system", "be concise", 0⟩, ⟨"user", "what is the answer here", 0⟩] (by decide)
